import Mathlib

/-!
Verification of the habit-analytics engine of the Habit-Tracker repository.

The engine is split across two source files:
* `src/backend/server.js` — the `/habits/:id/analytics` handler: streak
  computation (lines 252–272) and completion rate (lines 274–280);
* the React component (`src/unnamed/part_000`) — `weeklyData` (weekday
  histogram, lines 271–284), `monthlyData` (trailing 30-day series, lines
  286–314) and `calendarCells` (month grid, lines 335–385).

Embedding conventions.  A calendar date is represented by its day number:
an integer counting whole days since the Unix epoch (1970-01-01, a
Thursday, hence day 0 has JavaScript weekday `getDay() = 4`).  All dates in
the source are normalized to midnight (`setHours(0,0,0,0)` or date-only
strings) before arithmetic, so every millisecond difference is an exact
multiple of `1000*60*60*24` and `Math.round(diffMs / msPerDay)` and
`Math.floor(diffMs / msPerDay)` are the exact integer day difference; the
embedding therefore works directly with day numbers.  A log entry that
cannot be normalized to a calendar day (JavaScript `NaN` date) is
represented by `none : Option Day`.  `Math.round` on the non-negative
values arising here is floor(x + 1/2); division is modelled exactly over ℚ.
-/

namespace HabitTracker

/-- A calendar date, as a whole-day count since the Unix epoch. -/
abbrev Day := Int

/-- JavaScript `Date.getDay()` (0 = Sunday) for a day number: day 0
(1970-01-01) is a Thursday, weekday 4. -/
def weekday (d : Day) : Nat := ((d + 4) % 7).toNat

/-! ## Streak calculator (`src/backend/server.js`, lines 252–272)

```
let currentStreak = 0, longestStreak = 0;
if (logs.length > 0) {
  let streak = 1;
  for (let i = 1; i < logs.length; i++) {
    const diffInDays = Math.round((curr - prev) / msPerDay);
    if (diffInDays === 1) streak += 1;
    else { if (streak > longestStreak) longestStreak = streak; streak = 1; }
  }
  longestStreak = Math.max(longestStreak, streak);
  currentStreak = streak;
}
```
-/

/-- The loop body of the streak computation: `prev` is the previous date,
`streak`/`longest` the running counters, and the list argument is the rest
of the log dates.  Returns `(currentStreak, longestStreak)` after the
post-loop fold `longestStreak = max(longestStreak, streak)`. -/
def streakWalk (prev : Day) (streak longest : Nat) : List Day → Nat × Nat
  | [] => (streak, max longest streak)
  | curr :: rest =>
      if curr - prev = 1 then streakWalk curr (streak + 1) longest rest
      else streakWalk curr 1 (max longest streak) rest

/-- The streak computation of the analytics handler, as a function of the
ascending-ordered log dates: returns `(currentStreak, longestStreak)`. -/
def computeStreaks : List Day → Nat × Nat
  | [] => (0, 0)
  | d :: rest => streakWalk d 1 0 rest

/-! ### Specification-side streak description, for the refinement claim -/

/-- The whole-day differences of adjacent pairs of a date sequence. -/
def adjDiffs : List Day → List Int
  | [] => []
  | [_] => []
  | a :: b :: rest => (b - a) :: adjDiffs (b :: rest)

/-- One step of the spec's description: if the pair difference is exactly 1
the run is extended, otherwise `longestStreak` is updated to
`max longestStreak runningStreak` and the counter resets to 1. -/
def specStreakStep (acc : Nat × Nat) (diff : Int) : Nat × Nat :=
  if diff = 1 then (acc.1 + 1, acc.2) else (1, max acc.2 acc.1)

/-- The spec's streak description: walk adjacent pairs with a running
counter starting at 1 when the sequence is non-empty (0 when empty), then
fold the final run into `longestStreak` once more. -/
def specStreaks (dates : List Day) : Nat × Nat :=
  match dates with
  | [] => (0, 0)
  | _ :: _ =>
      let r := (adjDiffs dates).foldl specStreakStep (1, 0)
      (r.1, max r.2 r.1)

theorem streakWalk_eq_foldl (rest : List Day) :
    ∀ (prev : Day) (s L : Nat),
      streakWalk prev s L rest =
        (fun r : Nat × Nat => (r.1, max r.2 r.1))
          ((adjDiffs (prev :: rest)).foldl specStreakStep (s, L)) := by
  induction rest with
  | nil => intro prev s L; simp [streakWalk, adjDiffs]
  | cons curr rest ih =>
      intro prev s L
      simp only [streakWalk, adjDiffs, List.foldl_cons]
      by_cases h : curr - prev = 1
      · rw [if_pos h, ih, specStreakStep, if_pos h]
      · rw [if_neg h, ih, specStreakStep, if_neg h]

/-- C1: the streak calculator computes exactly the pair-walking algorithm
described by the spec — running counter starting at 1 for a non-empty
sequence (0 when empty), extended when the whole-day difference of a pair
is exactly 1, otherwise `longestStreak := max longestStreak runningStreak`
and the counter reset to 1, with the final run folded into `longestStreak`
after the loop; in particular the empty sequence yields `(0, 0)` and any
one-element sequence yields `(1, 1)`. -/
theorem streak_calculator_matches_spec :
    (∀ dates : List Day, computeStreaks dates = specStreaks dates)
      ∧ computeStreaks [] = (0, 0)
      ∧ (∀ d : Day, computeStreaks [d] = (1, 1)) := by
  refine ⟨?_, rfl, fun d => rfl⟩
  intro dates
  cases dates with
  | nil => rfl
  | cons d rest =>
      rw [computeStreaks, streakWalk_eq_foldl]
      rfl

/-! ## C2: current streak is the tail run length -/

/-- Length of the maximal run of consecutive calendar days ending at the
last date of the sequence: the run extends through an earlier date exactly
when everything after it already forms one single consecutive run and the
date connects to it with a whole-day difference of 1. -/
def tailRunLen : List Day → Nat
  | [] => 0
  | [_] => 1
  | a :: b :: rest =>
      let t := tailRunLen (b :: rest)
      if b - a = 1 ∧ t = (b :: rest).length then t + 1 else t

theorem tailRunLen_le_length : ∀ l : List Day, tailRunLen l ≤ l.length
  | [] => le_refl _
  | [_] => le_refl _
  | a :: b :: rest => by
      have ih := tailRunLen_le_length (b :: rest)
      simp only [tailRunLen]
      split
      · next h => simp [h.2]
      · exact le_trans ih (by simp)

theorem streakWalk_fst_eq_tailRunLen (rest : List Day) :
    ∀ (prev : Day) (s L : Nat),
      (streakWalk prev s L rest).1 =
        if tailRunLen (prev :: rest) = (prev :: rest).length
        then s + rest.length else tailRunLen (prev :: rest) := by
  induction rest with
  | nil => intro prev s L; simp [streakWalk, tailRunLen]
  | cons curr rest ih =>
      intro prev s L
      have hle : tailRunLen (curr :: rest) ≤ (curr :: rest).length :=
        tailRunLen_le_length _
      by_cases h : curr - prev = 1
      · rw [streakWalk, if_pos h, ih]
        by_cases ht : tailRunLen (curr :: rest) = (curr :: rest).length
        · rw [if_pos ht]
          have hfull : tailRunLen (prev :: curr :: rest) =
              (prev :: curr :: rest).length := by
            simp only [tailRunLen, List.length_cons]
            rw [if_pos ⟨h, ht⟩, ht]
            simp only [List.length_cons]
          rw [if_pos hfull]
          simp only [List.length_cons]
          omega
        · rw [if_neg ht]
          have htail : tailRunLen (prev :: curr :: rest) =
              tailRunLen (curr :: rest) := by
            simp only [tailRunLen]
            rw [if_neg (fun hc => ht hc.2)]
          have hne : tailRunLen (prev :: curr :: rest) ≠
              (prev :: curr :: rest).length := by
            rw [htail]
            intro hc
            exact absurd hc (Nat.ne_of_lt (Nat.lt_succ_of_le hle))
          rw [if_neg hne, htail]
      · rw [streakWalk, if_neg h, ih]
        have htail : tailRunLen (prev :: curr :: rest) =
            tailRunLen (curr :: rest) := by
          simp only [tailRunLen]
          rw [if_neg (fun hc => h hc.1)]
        have hne : tailRunLen (prev :: curr :: rest) ≠
            (prev :: curr :: rest).length := by
          rw [htail]
          intro hc
          exact absurd hc (Nat.ne_of_lt (Nat.lt_succ_of_le hle))
        rw [if_neg hne, htail]
        by_cases ht : tailRunLen (curr :: rest) = (curr :: rest).length
        · rw [if_pos ht, ht]; simp only [List.length_cons]; omega
        · rw [if_neg ht]

/-- C2: for every non-empty strictly-ascending log sequence, the computed
`currentStreak` (first component of `computeStreaks`) equals the length of
the maximal run of consecutive calendar days ending at the last date of the
sequence — a quantity independent of "today"; concretely, completions on
days 1,2,3,5 yield `currentStreak = 1` and `longestStreak = 3`. -/
theorem current_streak_is_tail_run :
    (∀ dates : List Day, dates ≠ [] → List.Chain' (fun a b => a < b) dates →
        (computeStreaks dates).1 = tailRunLen dates)
      ∧ computeStreaks [1, 2, 3, 5] = (1, 3) := by
  constructor
  · intro dates hne _
    match dates, hne with
    | d :: rest, _ =>
        rw [computeStreaks, streakWalk_fst_eq_tailRunLen]
        by_cases ht : tailRunLen (d :: rest) = (d :: rest).length
        · rw [if_pos ht, ht]; simp only [List.length_cons]; omega
        · rw [if_neg ht]
  · decide

/-- Witness for `current_streak_is_tail_run` at the sequence `[4, 5, 7, 8]`. -/
theorem current_streak_is_tail_run_witness :
    (computeStreaks [4, 5, 7, 8]).1 = tailRunLen [4, 5, 7, 8] :=
  current_streak_is_tail_run.1 [4, 5, 7, 8] (by decide)
    (by norm_num [List.chain'_cons])

/-! ## Completion rate (`src/backend/server.js`, lines 274–280)

```
const diffMs = today.setHours(0,0,0,0) - start.setHours(0,0,0,0);
const totalDays = diffMs >= 0 ? Math.floor(diffMs / msPerDay) + 1 : 0;
const completionRate =
  totalDays > 0 ? Math.round((logs.length / totalDays) * 100) : 0;
```
-/

/-- Eligible-day count `totalDays`: whole-day span from start to today,
inclusive, clamped to 0 for a future start date. -/
def eligibleDays (startDate today : Day) : Nat :=
  if 0 ≤ today - startDate then (today - startDate).toNat + 1 else 0

/-- JavaScript `Math.round` on the exact rational value: floor(x + 1/2). -/
def jsRound (q : ℚ) : Int := Int.floor (q + 1 / 2)

/-- Rounding to the nearest whole number with ties rounded half away from
zero, as the spec words it. -/
def specRound (q : ℚ) : Int :=
  if 0 ≤ q then Int.floor (q + 1 / 2) else -Int.floor (-q + 1 / 2)

/-- The completion-rate computation of the analytics handler. -/
def completionRate (startDate today : Day) (total : Nat) : Int :=
  let e := eligibleDays startDate today
  if 0 < e then jsRound ((total : ℚ) / (e : ℚ) * 100) else 0

/-- C3: `completionRate` equals `round(100 * totalCompletions /
eligibleDays)` with ties rounded half away from zero when `eligibleDays >
0` and is 0 otherwise, where `eligibleDays` is the whole-day span from
`startDate` to `today` plus one, clamped to 0 when negative; and
`totalCompletions` is not capped at `eligibleDays` (two completions in a
one-day window yield a rate of 200). -/
theorem completion_rate_formula :
    (∀ (startDate today : Day) (total : Nat),
        completionRate startDate today total =
          if 0 < eligibleDays startDate today
          then specRound (100 * (total : ℚ) / (eligibleDays startDate today : ℚ))
          else 0)
      ∧ completionRate 0 0 2 = 200 := by
  constructor
  · intro startDate today total
    by_cases he : 0 < eligibleDays startDate today
    · rw [completionRate, if_pos he, if_pos he]
      have hq : (0 : ℚ) ≤ 100 * (total : ℚ) / (eligibleDays startDate today : ℚ) := by
        positivity
      rw [specRound, if_pos hq, jsRound]
      congr 1
      ring
    · rw [completionRate, if_neg he, if_neg he]
  · norm_num [completionRate, eligibleDays, jsRound]

/-- Witness: `completion_rate_formula` has no hypotheses of its own, but we
record its first component at concrete inputs — 1 completion in a 3-day
window rounds 33.33 to 33. -/
theorem completion_rate_formula_value :
    completionRate 0 2 1 = 33 := by
  norm_num [completionRate, eligibleDays, jsRound]
  rw [show Int.toNat 2 = 2 from rfl, Int.floor_eq_iff]
  norm_num

/-- C7: for a fixed start date and today with a non-empty eligible window,
adding one more completed date never decreases the completion rate. -/
theorem completion_rate_monotone (startDate today : Day) (total : Nat)
    (he : 0 < eligibleDays startDate today) :
    completionRate startDate today total ≤
      completionRate startDate today (total + 1) := by
  rw [completionRate, completionRate]
  simp only [if_pos he]
  apply Int.floor_le_floor
  have hepos : (0 : ℚ) < (eligibleDays startDate today : ℚ) := by
    exact_mod_cast he
  gcongr
  exact_mod_cast Nat.le_succ total

/-- Witness for `completion_rate_monotone` at `startDate = 0`, `today = 4`,
`total = 2`. -/
theorem completion_rate_monotone_witness :
    0 < eligibleDays 0 4 ∧ completionRate 0 4 2 ≤ completionRate 0 4 3 :=
  ⟨by decide, completion_rate_monotone 0 4 2 (by decide)⟩

/-! ## Calendar grid (`calendarCells` in the React component, lines 335–385)

The source derives, from `today`, the first day of the current month, its
JavaScript weekday (`getDay()`, 0 = Sunday) and the number of days in the
month; the embedding takes the first day's day number `firstDay` and
`daysInMonth` as parameters (day `k` of the month is `firstDay + (k-1)`),
with the weekday computed from the day number.  The cell label is the day
number rendered as a string. -/

/-- Status tag of one calendar cell. -/
inductive CellStatus where
  | empty
  | notTracked
  | completed
  | missed
deriving DecidableEq, Repr

/-- One cell of the month grid. -/
structure Cell where
  label : String
  status : CellStatus
deriving DecidableEq, Repr

/-- The month-grid computation: `(startWeekday + 6) % 7` leading `empty`
alignment cells (Monday-first offset of day 1), then one cell per day of
the month whose status is `notTracked` when the day is before `habitStart`
or strictly after `today`, else `completed` when it is in the completion
set, else `missed`. -/
def calendarCells (firstDay : Day) (daysInMonth : Nat)
    (habitStart today : Day) (completionSet : List Day) : List Cell :=
  let offset := (weekday firstDay + 6) % 7
  List.replicate offset ⟨"", CellStatus.empty⟩ ++
    (List.range daysInMonth).map (fun (k : Nat) =>
      let d := firstDay + (k : Int)
      let status :=
        if d < habitStart ∨ today < d then CellStatus.notTracked
        else if d ∈ completionSet then CellStatus.completed
        else CellStatus.missed
      ⟨toString (k + 1), status⟩)

/-- A default cell, used only as the `getD` fallback in statements. -/
def dfltCell : Cell := ⟨"", CellStatus.empty⟩

theorem calendarCells_getD_day (firstDay : Day) (daysInMonth : Nat)
    (habitStart today : Day) (completionSet : List Day) (k : Nat)
    (hk : k < daysInMonth) :
    (calendarCells firstDay daysInMonth habitStart today completionSet).getD
        ((weekday firstDay + 6) % 7 + k) dfltCell =
      ⟨toString (k + 1),
        if firstDay + (k : Int) < habitStart ∨ today < firstDay + (k : Int)
        then CellStatus.notTracked
        else if firstDay + (k : Int) ∈ completionSet then CellStatus.completed
        else CellStatus.missed⟩ := by
  rw [calendarCells]
  rw [List.getD_append_right _ _ _ _ (by simp [List.length_replicate])]
  simp only [List.length_replicate, Nat.add_sub_cancel_left]
  rw [List.getD_eq_getElem _ _ (by simpa using hk)]
  rw [List.getElem_map]
  simp only [List.getElem_range]

/-- C4: the calendar grid consists of exactly the Monday-first weekday
offset of day 1 many leading `empty` cells followed by one cell per day of
the month; each day's status is decided by the precedence `notTracked`
(day before `habitStart` or strictly after `today`) before `completed`
(day in the completion set) before `missed`; consequently every day cell
carries exactly one of the three non-`empty` statuses and is `notTracked`
iff its day `d` satisfies `d < habitStart ∨ today < d`. -/
theorem calendar_grid_invariant (firstDay : Day) (daysInMonth : Nat)
    (habitStart today : Day) (completionSet : List Day) :
    (calendarCells firstDay daysInMonth habitStart today completionSet).length
        = (weekday firstDay + 6) % 7 + daysInMonth
      ∧ (∀ i, i < (weekday firstDay + 6) % 7 →
          ((calendarCells firstDay daysInMonth habitStart today
              completionSet).getD i dfltCell).status = CellStatus.empty)
      ∧ (∀ k, k < daysInMonth →
          let d := firstDay + (k : Int)
          let st := ((calendarCells firstDay daysInMonth habitStart today
              completionSet).getD ((weekday firstDay + 6) % 7 + k)
              dfltCell).status
          st ≠ CellStatus.empty
            ∧ (st = CellStatus.notTracked ↔ d < habitStart ∨ today < d)
            ∧ (st = CellStatus.completed ↔
                ¬(d < habitStart ∨ today < d) ∧ d ∈ completionSet)
            ∧ (st = CellStatus.missed ↔
                ¬(d < habitStart ∨ today < d) ∧ d ∉ completionSet)) := by
  refine ⟨?_, ?_, ?_⟩
  · rw [calendarCells]
    simp only [List.length_append, List.length_replicate, List.length_map,
      List.length_range]
  · intro i hi
    rw [calendarCells, List.getD_append _ _ _ _ (by simpa using hi)]
    rw [List.getD_eq_getElem _ _ (by simpa using hi)]
    simp only [List.getElem_replicate]
  · intro k hk
    rw [calendarCells_getD_day _ _ _ _ _ _ hk]
    by_cases hb : firstDay + (k : Int) < habitStart ∨ today < firstDay + (k : Int)
    · simp [hb]
    · by_cases hc : firstDay + (k : Int) ∈ completionSet
      · simp [hb, hc]
      · simp [hb, hc]

/-- Witness for `calendar_grid_invariant`'s inner bounded quantifiers: a
March-2026-like month (first day a Sunday, 31 days), habit starting on the
3rd of the month, today the 10th, completion on the 5th. -/
theorem calendar_grid_invariant_witness :
    ((calendarCells 100 31 102 109 [104]).getD 0 dfltCell).status
        = CellStatus.empty
      ∧ ((calendarCells 100 31 102 109 [104]).getD ((weekday 100 + 6) % 7 + 4)
          dfltCell).status = CellStatus.completed := by
  have h := calendar_grid_invariant 100 31 102 109 [104]
  refine ⟨h.2.1 0 (by decide), ?_⟩
  have h4 := (h.2.2 4 (by decide)).2.2.1
  exact h4.mpr (by decide)

/-! ## Weekday histogram (`weeklyData`, lines 271–284) and trailing 30-day
series (`monthlyData`, lines 286–314) of the React component

Both are guarded by `analytics && analyticsLogs.length ? … : []`: with an
empty log list the result is the empty list.  Inside, `weeklyData` skips
entries whose date is `NaN` (`none` here) and increments the Monday-first
bucket `(getDay() + 6) % 7`; `monthlyData` builds the membership set by
filtering out `NaN` entries and emits, for `i` from 29 down to 0, a point
for the day `today − i` with value 1 iff that day is in the set.  The
source's point label is a locale rendering of the day; the embedding keeps
the day number itself. -/

/-- One step of the weekday-histogram fold: an entry that cannot be
normalized to a calendar day (`none`) is skipped, a valid date increments
bucket `(weekday + 6) % 7`. -/
def weekStep (cs : List Nat) (od : Option Day) : List Nat :=
  match od with
  | none => cs
  | some d =>
      let idx := (weekday d + 6) % 7
      cs.set idx (cs.getD idx 0 + 1)

/-- The weekday-histogram computation. -/
def weeklyData : List (Option Day) → List Nat
  | [] => []
  | od :: rest => (od :: rest).foldl weekStep (List.replicate 7 0)

/-- One point of the trailing 30-day series: the day it stands for (the
source renders it as a locale label) and its 0/1 value. -/
structure Pt where
  day : Day
  value : Nat
deriving DecidableEq, Repr

/-- The trailing 30-day series computation. -/
def monthlyData : List (Option Day) → Day → List Pt
  | [], _ => []
  | od :: rest, today =>
      let completedSet := (od :: rest).filterMap id
      (List.range 30).map (fun (j : Nat) =>
        let d := today - (29 - (j : Int))
        ⟨d, if d ∈ completedSet then 1 else 0⟩)

theorem length_foldl_weekStep (logs : List (Option Day)) :
    ∀ cs : List Nat, (logs.foldl weekStep cs).length = cs.length := by
  induction logs with
  | nil => intro cs; rfl
  | cons od rest ih =>
      intro cs
      rw [List.foldl_cons, ih]
      cases od with
      | none => rfl
      | some d => simp [weekStep]

theorem getD_foldl_weekStep (logs : List (Option Day)) :
    ∀ (cs : List Nat) (k : Nat), k < cs.length →
      (logs.foldl weekStep cs).getD k 0 =
        cs.getD k 0 +
          (logs.filterMap id).countP (fun d => decide ((weekday d + 6) % 7 = k)) := by
  induction logs with
  | nil => intro cs k _; simp
  | cons od rest ih =>
      intro cs k hk
      cases od with
      | none =>
          rw [List.foldl_cons, show weekStep cs none = cs from rfl, ih cs k hk]
          rw [List.filterMap_cons_none rfl]
      | some d =>
          rw [List.foldl_cons]
          have hlen : k < (weekStep cs (some d)).length := by
            simpa [weekStep] using hk
          rw [ih _ k hlen,
            List.filterMap_cons_some
              (show id (some d) = some d from rfl), List.countP_cons]
          have hstep : (weekStep cs (some d)).getD k 0 =
              cs.getD k 0 + (if (weekday d + 6) % 7 = k then 1 else 0) := by
            by_cases hik : (weekday d + 6) % 7 = k
            · rw [if_pos hik]
              show (cs.set ((weekday d + 6) % 7)
                  (cs.getD ((weekday d + 6) % 7) 0 + 1)).getD k 0 = _
              rw [hik, List.getD_eq_getElem _ _ (by simpa using hk),
                List.getElem_set_self (by simpa using hk)]
            · rw [if_neg hik]
              show (cs.set ((weekday d + 6) % 7)
                  (cs.getD ((weekday d + 6) % 7) 0 + 1)).getD k 0 = _
              rw [List.getD_eq_getElem _ _ (by simpa using hk),
                List.getElem_set_ne hik, List.getD_eq_getElem _ _ hk]
              exact (Nat.add_zero _).symm
          rw [hstep]
          simp only [decide_eq_true_eq]
          omega

theorem foldl_weekStep_filterMap (logs : List (Option Day)) :
    ∀ cs : List Nat,
      logs.foldl weekStep cs =
        (logs.filterMap id).foldl (fun cs d => weekStep cs (some d)) cs := by
  induction logs with
  | nil => intro cs; rfl
  | cons od rest ih =>
      intro cs
      cases od with
      | none => rw [List.foldl_cons, List.filterMap_cons_none rfl, ih]; rfl
      | some d =>
          rw [List.foldl_cons,
            List.filterMap_cons_some (show id (some d) = some d from rfl),
            List.foldl_cons, ih]

theorem monthlyData_length (logs : List (Option Day)) (today : Day)
    (hne : logs ≠ []) : (monthlyData logs today).length = 30 := by
  match logs, hne with
  | od :: rest, _ => simp [monthlyData]

theorem weeklyData_length (logs : List (Option Day)) (hne : logs ≠ []) :
    (weeklyData logs).length = 7 := by
  match logs, hne with
  | od :: rest, _ =>
      rw [weeklyData, length_foldl_weekStep]
      simp

/-- C5 counterexample: with zero log entries the trailing-window series is
empty, not 30 points, refuting the claim's "regardless of log count". -/
theorem trailing_window_empty_logs :
    (monthlyData [] 0).length = 0 := rfl

/-- C5 (amended to non-empty log lists): the trailing-window series has
exactly 30 points, ordered oldest to newest: the point at position `j`
stands for the day `today − (29 − j)` and has value 1 if that day is among
the (valid) completion dates and 0 otherwise, regardless of habit start
date. -/
theorem trailing_window_points (logs : List (Option Day)) (today : Day)
    (hne : logs ≠ []) :
    (monthlyData logs today).length = 30
      ∧ ∀ j, j < 30 →
          (monthlyData logs today).getD j ⟨0, 0⟩ =
            ⟨today - (29 - (j : Int)),
              if today - (29 - (j : Int)) ∈ logs.filterMap id then 1 else 0⟩ := by
  refine ⟨monthlyData_length logs today hne, ?_⟩
  intro j hj
  match logs, hne with
  | od :: rest, _ =>
      rw [monthlyData]
      rw [List.getD_eq_getElem _ _ (by simpa using hj), List.getElem_map]
      simp only [List.getElem_range]

/-- Witness for `trailing_window_points` at one valid and one invalid
entry, `today = 40`, position 29 (the point for `today` itself). -/
theorem trailing_window_points_witness :
    (monthlyData [some 40, none] 40).getD 29 ⟨0, 0⟩ = ⟨40, 1⟩ := by
  have h := (trailing_window_points [some 40, none] 40 (by decide)).2 29
    (by decide)
  rw [h]
  decide

/-- C6 counterexample: with zero log entries the weekday histogram is the
empty list, not 7 bucket counts, refuting the claim for the empty
completion set. -/
theorem weekday_histogram_empty_logs :
    (weeklyData []).length = 0 := rfl

/-- C6 (amended to non-empty log lists): the weekday histogram has exactly
7 buckets indexed Monday = 0 through Sunday = 6, and bucket `k` counts
precisely the (valid) completion dates whose Monday-first index
`(weekday + 6) % 7` — with `weekday` Sunday-origin — equals `k`. -/
theorem weekday_distribution_counts (logs : List (Option Day))
    (hne : logs ≠ []) :
    (weeklyData logs).length = 7
      ∧ ∀ k, k < 7 →
          (weeklyData logs).getD k 0 =
            (logs.filterMap id).countP
              (fun d => decide ((weekday d + 6) % 7 = k)) := by
  refine ⟨weeklyData_length logs hne, ?_⟩
  intro k hk
  match logs, hne with
  | od :: rest, _ =>
      rw [weeklyData, getD_foldl_weekStep _ _ k (by simpa using hk)]
      rw [List.getD_eq_getElem _ _ (by simpa using hk), List.getElem_replicate]
      exact Nat.zero_add _

/-- Witness for `weekday_distribution_counts`: days 0 and 7 are Thursdays
(Monday-first index 3), so bucket 3 counts both. -/
theorem weekday_distribution_counts_witness :
    (weeklyData [some 0, some 7, none]).getD 3 0 =
      ([0, 7] : List Day).countP (fun d => decide ((weekday d + 6) % 7 = 3)) :=
  (weekday_distribution_counts [some 0, some 7, none] (by decide)).2 3
    (by decide)

/-- C9 counterexample: an entry that cannot be normalized to a calendar day
does not make the computation fail — both aggregations silently drop it and
return exactly the result they return without it. -/
theorem invalid_date_skipped :
    weeklyData [some 0, none] = weeklyData [some 0]
      ∧ monthlyData [some 0, none] 3 = monthlyData [some 0] 3 := by decide

/-- C9 (amended): an unnormalizable completion entry is silently skipped by
the weekday histogram and silently filtered out of the trailing-window
membership set, and the computation continues: any two non-empty log lists
with the same valid entries produce identical outputs. -/
theorem invalid_dates_ignored (l₁ l₂ : List (Option Day)) (today : Day)
    (h₁ : l₁ ≠ []) (h₂ : l₂ ≠ []) (hv : l₁.filterMap id = l₂.filterMap id) :
    weeklyData l₁ = weeklyData l₂ ∧ monthlyData l₁ today = monthlyData l₂ today := by
  constructor
  · match l₁, h₁, l₂, h₂ with
    | a :: r₁, _, b :: r₂, _ =>
        rw [weeklyData, weeklyData, foldl_weekStep_filterMap,
          foldl_weekStep_filterMap, hv]
  · match l₁, h₁, l₂, h₂ with
    | a :: r₁, _, b :: r₂, _ =>
        rw [monthlyData, monthlyData]
        simp only [hv]

/-- Witness for `invalid_dates_ignored`: the lists `[some 0, none]` and
`[none, some 0]` carry the same single valid date. -/
theorem invalid_dates_ignored_witness :
    weeklyData [some 0, none] = weeklyData [none, some 0]
      ∧ monthlyData [some 0, none] 5 = monthlyData [none, some 0] 5 :=
  invalid_dates_ignored [some 0, none] [none, some 0] 5 (by decide) (by decide)
    (by decide)

/-- C10: with an empty log list the weekday histogram and the trailing
30-day series are emitted as empty lists — not as seven zero buckets and
thirty zero points — and their fixed-length shapes (7 and 30) hold for
every non-empty log list. -/
theorem empty_logs_empty_charts :
    weeklyData [] = []
      ∧ (∀ t : Day, monthlyData [] t = [])
      ∧ (∀ logs : List (Option Day), logs ≠ [] → (weeklyData logs).length = 7)
      ∧ (∀ (logs : List (Option Day)) (t : Day), logs ≠ [] →
          (monthlyData logs t).length = 30) :=
  ⟨rfl, fun _ => rfl, fun logs h => weeklyData_length logs h,
    fun logs t h => monthlyData_length logs t h⟩

/-- Witness for `empty_logs_empty_charts` at the one-entry log list. -/
theorem empty_logs_empty_charts_witness :
    (weeklyData [some 2]).length = 7 ∧ (monthlyData [some 2] 0).length = 30 :=
  ⟨empty_logs_empty_charts.2.2.1 [some 2] (by decide),
    empty_logs_empty_charts.2.2.2 [some 2] 0 (by decide)⟩

/-! ## Combined analytics result and input ordering (C8) -/

/-- The stats object assembled by the analytics handler. -/
structure Analytics where
  currentStreak : Nat
  longestStreak : Nat
  totalCompletions : Nat
  completionRate : Int
deriving DecidableEq, Repr

/-- The handler's combined computation over the log-date list it receives.
The retrieval query orders the logs by date ascending; the computation
itself performs no sorting. -/
def computeAnalytics (startDate today : Day) (completedDates : List Day) :
    Analytics :=
  let s := computeStreaks completedDates
  ⟨s.1, s.2, completedDates.length,
    completionRate startDate today completedDates.length⟩

/-- C8 counterexample: `[0, 1]` and its reordering `[1, 0]` are the same
two distinct dates, yet the computation — which contains no defensive
sort — returns different streaks for them, refuting permutation invariance
as claimed. -/
theorem analytics_not_permutation_invariant :
    List.Perm ([0, 1] : List Day) [1, 0]
      ∧ List.Nodup ([0, 1] : List Day)
      ∧ computeAnalytics 0 10 [0, 1] ≠ computeAnalytics 0 10 [1, 0] := by
  refine ⟨List.Perm.swap 1 0 [], by decide, ?_⟩
  intro hc
  have h1 : (computeAnalytics 0 10 [0, 1]).currentStreak =
      (computeAnalytics 0 10 [1, 0]).currentStreak := by rw [hc]
  exact absurd h1 (by decide)

/-- Ascending defensive sort.  Modelled from the spec: the spec says the
engine "sorts defensively", but no sort exists in the computation of the
source — ascending order is produced by the retrieval query
(`orderBy: date asc`, `src/backend/server.js` line 249). -/
def sortAsc (l : List Day) : List Day := l.insertionSort (fun a b => a ≤ b)

/-- C8 (amended): the computation itself does not sort, so permutation
invariance fails on raw input; it holds once the dates are put in
ascending order — for any two reorderings of the same distinct-date list,
computing on their ascending sorts yields identical results, which is why
callers relying on the ascending retrieval order get an order-independent
result. -/
theorem analytics_permutation_invariant_after_sort
    (startDate today : Day) (l1 l2 : List Day) (hp : l1.Perm l2) :
    computeAnalytics startDate today (sortAsc l1) =
      computeAnalytics startDate today (sortAsc l2) := by
  have hs : sortAsc l1 = sortAsc l2 := by
    apply List.eq_of_perm_of_sorted
      ((List.perm_insertionSort _ l1).trans
        (hp.trans (List.perm_insertionSort _ l2).symm))
      (List.sorted_insertionSort _ l1) (List.sorted_insertionSort _ l2)
  rw [hs]

/-- Witness for `analytics_permutation_invariant_after_sort` at two
reorderings of `[1, 2, 3]`. -/
theorem analytics_permutation_invariant_after_sort_witness :
    computeAnalytics 0 10 (sortAsc [3, 1, 2]) =
      computeAnalytics 0 10 (sortAsc [2, 3, 1]) :=
  analytics_permutation_invariant_after_sort 0 10 [3, 1, 2] [2, 3, 1]
    (by decide)

end HabitTracker
